import Mathlib

/-!
# Verification of the `nocturne` real-time software synthesizer

Shallow embedding of the core subsystems of the `nocturne` repository:

* `src/audio_device.rs` — the CPAL output-stream callback
  (`service_cpal_output_stream_callback`) and its `LeftoverBuffer`;
* `src/synthesizer.rs` — `Synthesizer::handle_midi_message`,
  `Synthesizer::sample_notes`, `SynthNote`;
* `src/wave_table.rs` — `WaveTableIndex` (the phase-accumulator oscillator);
* `src/midi.rs` — `single_timeline_of_events`, `ticks_to_duration`,
  `quantize_midi_tracks`, `convert_event_to_raw_message`.

Modeling conventions:

* `f32`/`f64` arithmetic is modeled with exact rational arithmetic (`ℚ`);
  every concrete input used in a theorem below is chosen so that the
  floating-point computation in the source is exact at that input.
* Channels are modeled by their observable protocol state: a bounded mpsc
  sender is a pending-message count plus a capacity plus a closed flag
  (`try_send` succeeds exactly when the count is below capacity), and a
  broadcast receiver is the list of frames that are ready to be received
  (`try_recv` pops the head, or reports `Empty`).  The broadcast `Lagged`
  outcome is a cross-thread race and is outside this single-thread model.
* A Rust `panic!`/`expect` is modeled by returning `none`.
-/

namespace Nocturne


/-- `FRAME_SIZE` from `src/lib.rs`: fixed internal audio frame length. -/
def FRAME_SIZE : ℕ := 512

/-! ## `LeftoverBuffer` (`src/audio_device.rs`) -/

/-- `LeftoverBuffer`: the most recently received frame plus a cursor marking
how much of it has already been delivered to the device. -/
structure LeftoverBuffer where
  buffer : List ℚ
  cursor : ℕ
deriving Repr, DecidableEq

/-- `LeftoverBuffer::new`: zeroed buffer with `cursor = FRAME_SIZE` (empty). -/
def LeftoverBuffer.new : LeftoverBuffer :=
  ⟨List.replicate FRAME_SIZE 0, FRAME_SIZE⟩

/-- `LeftoverBuffer::items_leftover`. -/
def LeftoverBuffer.items_leftover (lb : LeftoverBuffer) : ℕ :=
  FRAME_SIZE - lb.cursor

/-- `LeftoverBuffer::is_empty`. -/
def LeftoverBuffer.is_empty (lb : LeftoverBuffer) : Bool :=
  lb.items_leftover == 0

/-- `LeftoverBuffer::consume`: copy
`copy_amt = min(items_leftover, data_out.len())` samples from
`buffer[cursor..]` into the front of `data_out`, advance the cursor, and
return the number of items consumed together with the updated buffer and
the updated output slice. -/
def LeftoverBuffer.consume (lb : LeftoverBuffer) (data_out : List ℚ) :
    ℕ × LeftoverBuffer × List ℚ :=
  let copy_amt := min lb.items_leftover data_out.length
  let copied := (lb.buffer.drop lb.cursor).take copy_amt
  (copy_amt, ⟨lb.buffer, lb.cursor + copy_amt⟩, copied ++ data_out.drop copy_amt)

/-- `LeftoverBuffer::overwrite`: replace the stored frame, reset the cursor. -/
def LeftoverBuffer.overwrite (lb : LeftoverBuffer) (data_in : List ℚ) :
    LeftoverBuffer :=
  ⟨data_in, 0⟩

/-! ## Channel model for the callback -/

/-- Result of `tokio::sync::mpsc::Sender::try_send`. -/
inductive SendResult where
  | ok
  | full
  | closed
deriving Repr, DecidableEq

/-- Observable state of the two channels touched by the audio callback:
the buffer-request mpsc sender (pending count, capacity, closed flag) and
the broadcast frame receiver (ready frames). -/
structure CallbackChans where
  reqPending : ℕ
  reqCap : ℕ
  reqClosed : Bool
  frames : List (List ℚ)
deriving Repr, DecidableEq

/-- Outcome tag of `buffer_request_tx.try_send(())`. -/
def CallbackChans.trySendRes (ch : CallbackChans) : SendResult :=
  if ch.reqClosed then SendResult.closed
  else if ch.reqPending < ch.reqCap then SendResult.ok
  else SendResult.full

/-- Channel state after `buffer_request_tx.try_send(())` (unchanged unless
the send succeeded). -/
def CallbackChans.afterSend (ch : CallbackChans) : CallbackChans :=
  if ch.trySendRes = SendResult.ok then
    { ch with reqPending := ch.reqPending + 1 }
  else ch

/-- `frame_rx.try_recv()`: `some` on `Ok(frame)`; `none` covers the `Empty`
and `Closed` outcomes, which the callback treats identically (log a warning
and `break`).  `Lagged` is a cross-thread race, outside this model. -/
def CallbackChans.tryRecv (ch : CallbackChans) :
    Option (List ℚ × CallbackChans) :=
  match ch.frames with
  | f :: rest => some (f, { ch with frames := rest })
  | [] => none

/-! ## The audio callback (`service_cpal_output_stream_callback`) -/

/-- Mutable state of one iteration of the callback's fill loop.  `sends`
counts successful `try_send` calls within the invocation (it equals the
number of requests the synthesizer side will observe from it). -/
structure CbSt where
  data : List ℚ
  fulfilled : ℕ
  lb : LeftoverBuffer
  ch : CallbackChans
  debt : ℕ
  sends : ℕ
deriving Repr, DecidableEq

/-- Outcome of one iteration of the callback's `while` loop: a panic, a
`break` out of the loop, or continuation with an updated state. -/
inductive StepOut where
  | panicked
  | halt (s : CbSt)
  | next (s : CbSt)
deriving Repr, DecidableEq

/-- One iteration of the `while items_fulfilled < items_requested` loop in
`service_cpal_output_stream_callback` (`src/audio_device.rs:112-166`):
pay down debt if possible, then (if the leftover buffer is empty) emit one
buffer request — accumulating debt when the channel is full — and try to
receive a fresh frame, then consume from the leftover buffer into
`data[items_fulfilled..]`. -/
def callbackStep (s : CbSt) : StepOut :=
  -- Try to pay down our buffer request debt.
  let paid : Option CbSt :=
    if s.debt > 0 then
      match s.ch.trySendRes with
      | SendResult.ok =>
        some { s with ch := s.ch.afterSend, debt := s.debt - 1, sends := s.sends + 1 }
      | SendResult.full => some s
      | SendResult.closed => none   -- panic!
    else some s
  match paid with
  | none => StepOut.panicked
  | some s1 =>
    -- Replenish the buffer if it is empty.
    let replenished : Option CbSt :=
      if s1.lb.is_empty then
        match s1.ch.trySendRes with
        | SendResult.ok =>
          some { s1 with ch := s1.ch.afterSend, sends := s1.sends + 1 }
        | SendResult.full =>
          some { s1 with debt := s1.debt + 1 }
        | SendResult.closed => none   -- warn + break
      else some s1
    match replenished with
    | none => StepOut.halt s1
    | some s2 =>
      let recvStep : Option CbSt :=
        if s2.lb.is_empty then
          match s2.ch.tryRecv with
          | some (f, ch') =>
            some { s2 with lb := s2.lb.overwrite f, ch := ch' }
          | none => none   -- warn + break (`Empty` or `Closed`)
        else some s2
      match recvStep with
      | none => StepOut.halt s2
      | some s3 =>
        let (amt, lb', out') := s3.lb.consume (s3.data.drop s3.fulfilled)
        StepOut.next { s3 with
          data := s3.data.take s3.fulfilled ++ out'
          fulfilled := s3.fulfilled + amt
          lb := lb' }

/-- The callback's fill loop, with fuel.  The callback runs it with fuel
`data.len()`, which suffices because every `next` iteration fulfills at
least one item (a nonempty leftover buffer yields at least one sample, and
a successful receive makes it nonempty), so the loop always reaches its
exit condition or a `break` before the fuel runs out. -/
def callbackLoop : ℕ → CbSt → Option CbSt
  | 0, s => some s
  | fuel + 1, s =>
    if s.fulfilled < s.data.length then
      match callbackStep s with
      | StepOut.panicked => none
      | StepOut.halt s' => some s'
      | StepOut.next s' => callbackLoop fuel s'
    else some s

/-- `service_cpal_output_stream_callback`: zero the output buffer, then run
the fill loop with `items_fulfilled = 0` and — crucially — a fresh local
`buffer_request_debt = 0` (`src/audio_device.rs:111`).  `none` models a
panic inside the callback. -/
def service_cpal_output_stream_callback (dataIn : List ℚ)
    (lb : LeftoverBuffer) (ch : CallbackChans) : Option CbSt :=
  callbackLoop dataIn.length
    ⟨List.replicate dataIn.length 0, 0, lb, ch, 0, 0⟩

/-! ## `WaveTableIndex` (`src/wave_table.rs`)

`f32` arithmetic is modeled over `ℚ`.  `rustRem` models the Rust float `%`
operator for a nonnegative dividend and positive divisor (the only case
arising below: index and step are nonnegative). -/

/-- `WAVE_TABLE_SIZE = 1 << 16`. -/
def WAVE_TABLE_SIZE : ℕ := 65536

/-- `table_sample_conversion_factor(sample_hz) = WAVE_TABLE_SIZE / sample_hz`. -/
def table_sample_conversion_factor (sample_hz : ℚ) : ℚ :=
  (WAVE_TABLE_SIZE : ℚ) / sample_hz

/-- Rust float `%` (remainder) for nonnegative dividend / positive divisor. -/
def rustRem (x y : ℚ) : ℚ := x - y * ⌊x / y⌋

/-- `WaveTableIndex`: phase-accumulator cursor into a wave table. -/
structure WaveTableIndex where
  index : ℚ
  indices_per_sample : ℚ
deriving Repr, DecidableEq

/-- `WaveTableIndex::new`. -/
def WaveTableIndex.new (start_index indices_per_sample : ℚ) : WaveTableIndex :=
  ⟨start_index, indices_per_sample⟩

/-- `WaveTableIndex::from_hz`: start at index 0 with step
`hz * table_sample_conversion_factor(sample_hz)`. -/
def WaveTableIndex.from_hz (sample_hz hz : ℚ) : WaveTableIndex :=
  WaveTableIndex.new 0 (hz * table_sample_conversion_factor sample_hz)

/-- `WaveTableIndex::sample_table`: return `table[floor(index)]`, then
advance `index = (index + indices_per_sample) % table.len()`.
(`table[...]` is modeled with `getD`; in-bounds access is proved in
`c7_oscillator_contract`.) -/
def WaveTableIndex.sample_table (wt : WaveTableIndex) (table : List ℚ) :
    ℚ × WaveTableIndex :=
  (table.getD ⌊wt.index⌋.toNat 0,
    ⟨rustRem (wt.index + wt.indices_per_sample) (table.length : ℚ),
      wt.indices_per_sample⟩)

/-- `k` successive advances of the phase accumulator. -/
def WaveTableIndex.advances (table : List ℚ) :
    ℕ → WaveTableIndex → WaveTableIndex
  | 0, wt => wt
  | k + 1, wt => WaveTableIndex.advances table k (wt.sample_table table).2

/-! ## `SynthNote` (`src/synthesizer.rs`) -/

/-- `SynthNote`: one sounding voice. -/
structure SynthNote where
  table_index : WaveTableIndex
  attack_factor : ℚ
  decay_factor : ℚ
  velocity : ℚ
  stop_requested : Bool
deriving Repr, DecidableEq

/-- `SynthNote::amplitude = 0.2 * attack_factor * decay_factor * velocity`. -/
def SynthNote.amplitude (n : SynthNote) : ℚ :=
  1/5 * n.attack_factor * n.decay_factor * n.velocity

/-- `SynthNote::sample_table`: amplitude times the oscillator sample;
advances only the oscillator, never the envelope. -/
def SynthNote.sample_table (n : SynthNote) (table : List ℚ) :
    ℚ × SynthNote :=
  let s := n.table_index.sample_table table
  (n.amplitude * s.1, { n with table_index := s.2 })

/-- `SynthNote::update_after_buffer`: the once-per-frame envelope update.
If stop was requested the decay factor drops by `0.05`; while below `1`
the attack factor rises by `0.02`. -/
def SynthNote.update_after_buffer (n : SynthNote) : SynthNote :=
  let n1 := if n.stop_requested
    then { n with decay_factor := n.decay_factor - 1/20 } else n
  if n1.attack_factor < 1
    then { n1 with attack_factor := n1.attack_factor + 1/50 } else n1

/-- `SynthNote::done_playing`: `decay_factor < 0.05`. -/
def SynthNote.done_playing (n : SynthNote) : Bool :=
  decide (n.decay_factor < 1/20)

/-- The per-note inner loop of `Synthesizer::sample_notes`
(`src/synthesizer.rs:110-119`): for each of `spf` sample positions, take
one (clipped, `min 1.0`) sample from the note and replicate it across the
output channels. -/
def noteFrameSamples (table : List ℚ) (channels : ℕ) :
    ℕ → SynthNote → List ℚ × SynthNote
  | 0, n => ([], n)
  | k + 1, n =>
    let s := n.sample_table table
    let rest := noteFrameSamples table channels k s.2
    (List.replicate channels (min s.1 1) ++ rest.1, rest.2)

/-- One frame of `Synthesizer::sample_notes` restricted to a single note:
sample the frame, apply the once-per-frame envelope update, and drop the
note (`none`) when `done_playing`. -/
def processNoteFrame (table : List ℚ) (channels spf : ℕ) (n : SynthNote) :
    List ℚ × Option SynthNote :=
  let r := noteFrameSamples table channels spf n
  let n' := r.2.update_after_buffer
  (r.1, if n'.done_playing then none else some n')

/-- The bare oscillator sample stream (no envelope): `k` successive raw
table samples starting from phase cursor `wt`. -/
def oscSamples (table : List ℚ) : ℕ → WaveTableIndex → List ℚ
  | 0, _ => []
  | k + 1, wt =>
    (wt.sample_table table).1 :: oscSamples table k (wt.sample_table table).2

/-! ## MIDI timeline (`src/midi.rs`)

A track is a list of `(delta, payload)` pairs — `midly::Event` carries its
delta-time (ticks since the previous event of the same track) and body; the
body is abstracted as a `ℕ` payload where its content does not matter. -/

/-- The per-track accumulator loop of `single_timeline_of_events`
(`src/midi.rs:171-178`): push `(abs_t, track_num, event)` **before** adding
the event's own delta to `abs_t`. -/
def trackEventsAux (track_num : ℕ) : ℤ → List (ℕ × ℕ) → List (ℤ × ℕ × ℕ × ℕ)
  | _, [] => []
  | abs_t, ev :: rest =>
    (abs_t, track_num, ev) :: trackEventsAux track_num (abs_t + (ev.1 : ℤ)) rest

/-- All `(absolute_tick, track_index, event)` triples, tracks in order. -/
def allTrackEvents (tracks : List (List (ℕ × ℕ))) : List (ℤ × ℕ × ℕ × ℕ) :=
  (tracks.enum.map (fun p => trackEventsAux p.1 0 p.2)).join

/-- The comparator of `all_events.sort_by(|(t1,..),(t2,..)| t1.cmp(&t2))`. -/
def tickLE (a b : ℤ × ℕ × ℕ × ℕ) : Prop := a.1 ≤ b.1

instance : DecidableRel tickLE :=
  fun a b => inferInstanceAs (Decidable (a.1 ≤ b.1))

instance : IsTotal (ℤ × ℕ × ℕ × ℕ) tickLE := ⟨fun a b => le_total a.1 b.1⟩

instance : IsTrans (ℤ × ℕ × ℕ × ℕ) tickLE :=
  ⟨fun _ _ _ hab hbc => le_trans hab hbc⟩

/-- `single_timeline_of_events`: gather, then stable-sort by absolute tick
(Rust's `sort_by` is stable; any stable sort produces the same list, here
insertion sort). -/
def single_timeline_of_events (tracks : List (List (ℕ × ℕ))) :
    List (ℤ × ℕ × ℕ × ℕ) :=
  List.insertionSort tickLE (allTrackEvents tracks)

/-! ## `ticks_to_duration` (`src/midi.rs:159-167`) -/

/-- Modeled from the `time_calc` dependency (scoped by the spec as an
external interface): `Ticks(delta_t).ms(bpm, ppqn) =
delta_t * 60000 / (bpm * ppqn)` — an `f64` in the source, exact at the
inputs used below. -/
def ticks_ms (bpm ppqn : ℚ) (delta_t : ℤ) : ℚ :=
  (delta_t : ℚ) * 60000 / (bpm * ppqn)

/-- `ticks_to_duration`: floor `millis * 1_000_000` to whole nanoseconds
(`as u64`, saturating at 0 — delta ticks are nonnegative here), split off
whole seconds, subtract `seconds * 1_000_000` (exactly as written in the
source), truncate to `u32`, and build `Duration::new(seconds, nanos)`,
which carries `nanos / 10^9` into the seconds.  Returns the Duration as
`(seconds, subsecond nanos)`. -/
def ticks_to_duration (bpm ppqn : ℚ) (delta_t : ℤ) : ℕ × ℕ :=
  let millis := ticks_ms bpm ppqn delta_t
  let nanos0 : ℕ := (⌊millis * 1000000⌋).toNat
  let seconds := nanos0 / 1000000000
  let nanos := nanos0 - seconds * 1000000
  let nanos32 := nanos % 2 ^ 32
  (seconds + nanos32 / 1000000000, nanos32 % 1000000000)

/-- Total length in nanoseconds of a `(seconds, subsec nanos)` Duration. -/
def durationTotalNanos (d : ℕ × ℕ) : ℕ := d.1 * 1000000000 + d.2

/-! ## MIDI message handling (`src/synthesizer.rs:69-91`) -/

/-- The message shapes distinguished by `handle_midi_message`'s `match`:
note-on, note-off, timing clock, active sensing, and everything else
(`other => trace!(...)`, ignored). -/
inductive MidiMsg where
  | noteOn (channel key vel : ℕ)
  | noteOff (channel key vel : ℕ)
  | timingClock
  | activeSensing
  | other
deriving Repr, DecidableEq

/-- Modeled from the `wmidi` dependency (`MidiMessage::try_from(&[u8])`),
which the spec scopes as transport-level byte decoding outside the core:
a 3-byte buffer parses to a channel-voice message when the status byte is
in `0x80..=0xEF` and the data bytes that message shape needs are valid
7-bit values; `0xF8` is TimingClock and `0xFE` ActiveSensing; the
remaining recognized system messages map to `other`; `none` models a
`wmidi` parse `Err` (undefined status bytes `0xF4/0xF5/0xF9/0xFD`, a data
byte `≥ 0x80`, a missing status bit, or a sysex form that cannot complete
inside the fixed 3-byte buffer). -/
def wmidi_try_from (b : List ℕ) : Option MidiMsg :=
  match b with
  | [s, d1, d2] =>
    if s < 0x80 then none
    else if s ≤ 0x8F then
      (if d1 < 0x80 ∧ d2 < 0x80 then some (MidiMsg.noteOff (s - 0x80) d1 d2)
       else none)
    else if s ≤ 0x9F then
      (if d1 < 0x80 ∧ d2 < 0x80 then some (MidiMsg.noteOn (s - 0x90) d1 d2)
       else none)
    else if s ≤ 0xBF then
      (if d1 < 0x80 ∧ d2 < 0x80 then some MidiMsg.other else none)
    else if s ≤ 0xDF then
      (if d1 < 0x80 then some MidiMsg.other else none)
    else if s ≤ 0xEF then
      (if d1 < 0x80 ∧ d2 < 0x80 then some MidiMsg.other else none)
    else if s = 0xF1 ∨ s = 0xF3 then
      (if d1 < 0x80 then some MidiMsg.other else none)
    else if s = 0xF2 then
      (if d1 < 0x80 ∧ d2 < 0x80 then some MidiMsg.other else none)
    else if s = 0xF6 then some MidiMsg.other
    else if s = 0xF8 then some MidiMsg.timingClock
    else if s = 0xFA ∨ s = 0xFB ∨ s = 0xFC then some MidiMsg.other
    else if s = 0xFE then some MidiMsg.activeSensing
    else if s = 0xFF then some MidiMsg.other
    else none
  | _ => none

/-- The `notes_playing: HashMap<Note, SynthNote>` map, as an association
list (key = MIDI note number). -/
abbrev NotesMap := List (ℕ × SynthNote)

/-- The key multiset view of the map. -/
def notesKeys (m : NotesMap) : List ℕ := m.map Prod.fst

/-- `HashMap::insert`: replace the value of an existing key, otherwise add
the binding. -/
def insertNote (key : ℕ) (v : SynthNote) : NotesMap → NotesMap
  | [] => [(key, v)]
  | (k, w) :: rest =>
    if k = key then (key, v) :: rest else (k, w) :: insertNote key v rest

/-- `HashMap::get` (first matching binding). -/
def lookupNote (key : ℕ) : NotesMap → Option SynthNote
  | [] => none
  | (k, w) :: rest => if k = key then some w else lookupNote key rest

/-- `Synthesizer::start_note`: insert/replace the voice for `key` with a
fresh `SynthNote { stop_requested: false, decay_factor: 1.0,
attack_factor: 0.0, velocity: vel / 100.0 }`.  The oscillator built from
`get_midi_key_hz(key)` is abstracted by the parameter `osc` (the key's
frequency `440·2^((k−69)/12)` is irrational, and no claim depends on it). -/
def start_note (osc : ℕ → WaveTableIndex) (key vel : ℕ) (m : NotesMap) :
    NotesMap :=
  insertNote key ⟨osc key, 0, 1, (vel : ℚ) / 100, false⟩ m

/-- `Synthesizer::stop_key`: set `stop_requested` on the matching voice if
one is sounding, otherwise leave the map unchanged. -/
def stop_key (key : ℕ) : NotesMap → NotesMap
  | [] => []
  | (k, w) :: rest =>
    if k = key then (k, { w with stop_requested := true }) :: rest
    else (k, w) :: stop_key key rest

/-- The `match` body of `Synthesizer::handle_midi_message`: note-on with
velocity 0 is a note-off; note-on with velocity > 0 starts (retriggers) the
note; note-off stops the key; TimingClock / ActiveSensing / other messages
leave the state untouched. -/
def handle_parsed_message (osc : ℕ → WaveTableIndex) (msg : MidiMsg)
    (m : NotesMap) : NotesMap :=
  match msg with
  | MidiMsg.noteOn _ key vel =>
    if vel = 0 then stop_key key m else start_note osc key vel m
  | MidiMsg.noteOff _ key _ => stop_key key m
  | MidiMsg.timingClock => m
  | MidiMsg.activeSensing => m
  | MidiMsg.other => m

/-- `Synthesizer::handle_midi_message`: parse the raw 3-byte message with
`MidiMessage::try_from(..).expect(..)` — `none` models the `expect` panic
on a parse error — then dispatch on the message. -/
def handle_midi_message (osc : ℕ → WaveTableIndex) (raw : ℕ × List ℕ)
    (m : NotesMap) : Option NotesMap :=
  match wmidi_try_from raw.2 with
  | some msg => some (handle_parsed_message osc msg m)
  | none => none

/-! ## Replay (`quantize_midi_tracks`, `src/midi.rs:95-157`) -/

/-- `convert_event_to_raw_message`: an event whose serialized form
(abstracted as its byte list) fits in 3 bytes is zero-padded to exactly 3
bytes; longer events are dropped (`None`). -/
def convert_event_to_raw_message (bytes : List ℕ) : Option (List ℕ) :=
  if bytes.length ≤ 3 then some (bytes ++ List.replicate (3 - bytes.length) 0)
  else none

/-- `send_event_to_track`: dispatch one `(timestamp, raw)` message to the
event's track channel, or nothing when the conversion dropped the event.
(`this_t as u64` — ticks here are nonnegative — is `Int.toNat`.) -/
def send_event_to_track (t : ℤ) (track : ℕ) (bytes : List ℕ) :
    List (ℕ × ℕ × List ℕ) :=
  match convert_event_to_raw_message bytes with
  | some raw => [(t.toNat, track, raw)]
  | none => []

/-- The replay loop of `quantize_midi_tracks` over the merged timeline
(each event given as `(absolute_tick, track_index, serialized bytes)`).
`cancel k` tells whether the cancellation stream fires at the `k`-th
`select!`; the result is the list of dispatched messages together with the
number of completed waits (`delay_for`s that ran to completion).

Shape of the source loop: consecutive events sharing an absolute tick are
batch-dispatched with no intervening `select!`; between distinct ticks (or
before a same-tick **final** event, where the inner loop exits on the index
bound with `delta_t = 0`) one `select!` races cancellation against
`delay_for(ticks_to_duration ..)`; on cancellation the loop `break`s — and
the final `all_events[i]` send after the loop still dispatches the next
pending event. -/
def replayAux (cancel : ℕ → Bool) :
    List (ℤ × ℕ × List ℕ) → ℕ → List (ℕ × ℕ × List ℕ) × ℕ
  | [], _ => ([], 0)
  | [e], _ => (send_event_to_track e.1 e.2.1 e.2.2, 0)
  | e :: e' :: rest, k =>
    if e'.1 = e.1 ∧ rest ≠ [] then
      let r := replayAux cancel (e' :: rest) k
      (send_event_to_track e.1 e.2.1 e.2.2 ++ r.1, r.2)
    else if cancel k then
      (send_event_to_track e.1 e.2.1 e.2.2 ++
        send_event_to_track e'.1 e'.2.1 e'.2.2, 0)
    else
      let r := replayAux cancel (e' :: rest) (k + 1)
      (send_event_to_track e.1 e.2.1 e.2.2 ++ r.1, r.2 + 1)

/-- `quantize_midi_tracks` (dispatch behavior): run the replay loop from
wait index 0.  (An empty timeline returns before the loop.) -/
def quantize_midi_tracks (cancel : ℕ → Bool)
    (events : List (ℤ × ℕ × List ℕ)) : List (ℕ × ℕ × List ℕ) × ℕ :=
  replayAux cancel events 0

/-- Number of bindings for `key` in the map. -/
def countNoteKey (key : ℕ) (m : NotesMap) : ℕ :=
  m.countP (fun p => p.1 == key)

/-- `try_recv` never touches the request-channel side. -/
theorem tryRecv_preserves_req (ch : CallbackChans) (f : List ℚ)
    (ch' : CallbackChans) (h : ch.tryRecv = some (f, ch')) :
    ch'.reqPending = ch.reqPending ∧ ch'.reqCap = ch.reqCap ∧
      ch'.reqClosed = ch.reqClosed := by
  unfold CallbackChans.tryRecv at h
  rcases hf : ch.frames with _ | ⟨g, rest⟩ <;> rw [hf] at h
  · cases h
  · cases h
    exact ⟨rfl, rfl, rfl⟩

/-- If the leftover buffer is empty, the frame channel has nothing ready and
is not closed-with-panic, one loop iteration halts without touching `data`,
`fulfilled`, or the frame list. -/
theorem callbackStep_starved_halts (s : CbSt) (hdebt : s.debt = 0)
    (hlb : s.lb.is_empty = true) (hfr : s.ch.frames = []) :
    ∃ s', callbackStep s = StepOut.halt s' ∧
      s'.data = s.data ∧ s'.fulfilled = s.fulfilled := by
  have hrecv : s.ch.tryRecv = none := by
    unfold CallbackChans.tryRecv
    rw [hfr]
  have hrecv' : s.ch.afterSend.tryRecv = none := by
    unfold CallbackChans.tryRecv CallbackChans.afterSend
    split_ifs <;> simp [hfr]
  simp only [callbackStep, hdebt, gt_iff_lt, lt_self_iff_false, if_false, hlb,
    if_true]
  cases hres : s.ch.trySendRes with
  | closed => exact ⟨s, rfl, rfl, rfl⟩
  | ok =>
      simp only [hlb, if_true, hrecv']
      exact ⟨_, rfl, rfl, rfl⟩
  | full =>
      simp only [hlb, if_true, hrecv]
      exact ⟨_, rfl, rfl, rfl⟩

/-- C2: for every callback invocation in which the leftover buffer is empty
and the producer frame channel is empty, the callback neither blocks nor
panics (the result is `some _`): it stops filling early, `consume`
contributes `0` items (`fulfilled = 0`), and every position of the output
buffer still holds the zero value it was defensively filled with. -/
theorem c2_starved_callback_is_silence (dataIn : List ℚ)
    (lb : LeftoverBuffer) (ch : CallbackChans)
    (hlb : lb.is_empty = true) (hfr : ch.frames = []) :
    ∃ r, service_cpal_output_stream_callback dataIn lb ch = some r ∧
      r.data = List.replicate dataIn.length 0 ∧ r.fulfilled = 0 := by
  unfold service_cpal_output_stream_callback
  generalize dataIn.length = n
  cases n with
  | zero => exact ⟨_, rfl, rfl, rfl⟩
  | succ k =>
    obtain ⟨s', hstep, hdata, hful⟩ := callbackStep_starved_halts
      ⟨List.replicate (k + 1) 0, 0, lb, ch, 0, 0⟩ rfl hlb hfr
    have hcond : (⟨List.replicate (k + 1) 0, 0, lb, ch, 0, 0⟩ : CbSt).fulfilled <
        (⟨List.replicate (k + 1) 0, 0, lb, ch, 0, 0⟩ : CbSt).data.length := by
      simp
    rw [callbackLoop, if_pos hcond, hstep]
    exact ⟨s', rfl, hdata, hful⟩

/-- C2 witness: concrete starved invocation. -/
theorem c2_starved_callback_is_silence_witness :
    LeftoverBuffer.new.is_empty = true ∧
    (⟨0, 1, false, []⟩ : CallbackChans).frames = [] ∧
    ∃ r, service_cpal_output_stream_callback [3] LeftoverBuffer.new
        ⟨0, 1, false, []⟩ = some r ∧
      r.data = List.replicate 1 0 ∧ r.fulfilled = 0 :=
  ⟨by decide, rfl,
    c2_starved_callback_is_silence [3] LeftoverBuffer.new
      ⟨0, 1, false, []⟩ (by decide) rfl⟩

/-- C1 (amended): within a single callback invocation, a failed buffer
request on a full channel increments the debt counter without blocking and
without dropping the loop iteration, and on a later iteration of the same
invocation with spare channel capacity one unit of debt is re-sent
(debt decremented, pending count incremented).  Debt is not carried across
invocations: `c1_debt_discarded_across_invocations` exhibits that. -/
theorem c1_debt_accumulate_and_paydown :
    (∀ s : CbSt, s.lb.is_empty = true → s.ch.reqClosed = false →
      ¬ s.ch.reqPending < s.ch.reqCap →
      ∃ s', (callbackStep s = StepOut.halt s' ∨ callbackStep s = StepOut.next s') ∧
        s'.debt = s.debt + 1 ∧ s'.sends = s.sends ∧
        s'.ch.reqPending = s.ch.reqPending) ∧
    (∀ s : CbSt, 0 < s.debt → s.ch.reqClosed = false →
      s.ch.reqPending < s.ch.reqCap → s.lb.is_empty = false →
      ∃ s', callbackStep s = StepOut.next s' ∧
        s'.debt = s.debt - 1 ∧ s'.sends = s.sends + 1 ∧
        s'.ch.reqPending = s.ch.reqPending + 1) := by
  constructor
  · intro s hlb hcl hfull
    have hres : s.ch.trySendRes = SendResult.full := by
      unfold CallbackChans.trySendRes
      rw [hcl, if_neg (by simp), if_neg hfull]
    simp only [callbackStep, hres, ite_self, hlb, if_true]
    rcases hfr : s.ch.tryRecv with _ | ⟨f, ch'⟩ <;> simp only [hfr]
    · exact ⟨{ s with debt := s.debt + 1 }, Or.inl rfl, rfl, rfl, rfl⟩
    · refine ⟨_, Or.inr rfl, rfl, rfl, ?_⟩
      exact (tryRecv_preserves_req s.ch f ch' hfr).1
  · intro s hdebt hcl hcap hlb
    have hres : s.ch.trySendRes = SendResult.ok := by
      unfold CallbackChans.trySendRes
      rw [hcl, if_neg (by simp), if_pos hcap]
    have hafter : s.ch.afterSend =
        { s.ch with reqPending := s.ch.reqPending + 1 } := by
      unfold CallbackChans.afterSend
      rw [hres, if_pos rfl]
    simp only [callbackStep, hres, hafter, gt_iff_lt, hdebt, if_true, hlb,
      Bool.false_eq_true, if_false]
    exact ⟨_, rfl, rfl, rfl, rfl⟩

/-- C1 amended witness: concrete states exercising both branches. -/
theorem c1_debt_accumulate_and_paydown_witness :
    (∃ s', (callbackStep ⟨[0], 0, LeftoverBuffer.new, ⟨1, 1, false, []⟩, 0, 0⟩ =
          StepOut.halt s' ∨
        callbackStep ⟨[0], 0, LeftoverBuffer.new, ⟨1, 1, false, []⟩, 0, 0⟩ =
          StepOut.next s') ∧
      s'.debt = 0 + 1 ∧ s'.sends = 0 ∧ s'.ch.reqPending = 1) ∧
    (∃ s', callbackStep ⟨[0], 0, ⟨List.replicate FRAME_SIZE 0, 1⟩,
          ⟨0, 1, false, []⟩, 1, 0⟩ = StepOut.next s' ∧
      s'.debt = 1 - 1 ∧ s'.sends = 0 + 1 ∧ s'.ch.reqPending = 0 + 1) :=
  ⟨c1_debt_accumulate_and_paydown.1
      ⟨[0], 0, LeftoverBuffer.new, ⟨1, 1, false, []⟩, 0, 0⟩
      (by decide) rfl (by decide),
    c1_debt_accumulate_and_paydown.2
      ⟨[0], 0, ⟨List.replicate FRAME_SIZE 0, 1⟩, ⟨0, 1, false, []⟩, 1, 0⟩
      (by decide) rfl (by decide) (by decide)⟩

/-- C1 counterexample: debt does **not** survive to the next callback
invocation.  Invocation 1 (request channel full, one frame ready) ends with
one unit of accumulated debt; before invocation 2 the synthesizer side
drains the channel, so capacity is available during the whole of
invocation 2 — yet invocation 2 performs no send at all (`sends = 0`,
pending count stays `0`): the debt unit was silently discarded, because
`buffer_request_debt` is a local re-initialized to `0` on every invocation
(`src/audio_device.rs:111`). -/
theorem c1_debt_discarded_across_invocations :
    (service_cpal_output_stream_callback [0] LeftoverBuffer.new
        ⟨1, 1, false, [List.replicate FRAME_SIZE 0]⟩).bind
      (fun s1 =>
        (service_cpal_output_stream_callback [0] s1.lb
            ⟨0, 1, false, []⟩).map
          (fun s2 => (s1.debt, s2.sends, s2.ch.reqPending))) =
    some (1, 0, 0) := by
  decide

/-- C10: `LeftoverBuffer` operations preserve `cursor ≤ FRAME_SIZE`; a new
buffer has `cursor = FRAME_SIZE` (empty), `overwrite` resets the cursor,
and `consume` copies exactly `min (FRAME_SIZE - cursor) data_out.length`
samples from the stored frame starting at `cursor` into the front of
`data_out`, returns that count, and advances the cursor by it — never
reading past the stored frame (the copied run really has that length) nor
writing past `data_out` (the output slice keeps its length). -/
theorem c10_leftover_buffer_ops :
    (LeftoverBuffer.new.cursor = FRAME_SIZE ∧ LeftoverBuffer.new.is_empty = true) ∧
    (∀ (lb : LeftoverBuffer) (d : List ℚ), (lb.overwrite d).cursor = 0) ∧
    (∀ (lb : LeftoverBuffer) (out : List ℚ),
      lb.cursor ≤ FRAME_SIZE → lb.buffer.length = FRAME_SIZE →
      (lb.consume out).1 = min (FRAME_SIZE - lb.cursor) out.length ∧
      (lb.consume out).2.1.cursor = lb.cursor + (lb.consume out).1 ∧
      (lb.consume out).2.1.cursor ≤ FRAME_SIZE ∧
      (lb.consume out).2.2 =
        (lb.buffer.drop lb.cursor).take (lb.consume out).1 ++
          out.drop (lb.consume out).1 ∧
      ((lb.buffer.drop lb.cursor).take (lb.consume out).1).length =
        (lb.consume out).1 ∧
      (lb.consume out).2.2.length = out.length) := by
  refine ⟨⟨rfl, by decide⟩, fun lb d => rfl, fun lb out hc hlen => ?_⟩
  have hamt : (lb.consume out).1 = min (FRAME_SIZE - lb.cursor) out.length := rfl
  have hle1 : (lb.consume out).1 ≤ FRAME_SIZE - lb.cursor := by
    rw [hamt]; exact min_le_left _ _
  have hle2 : (lb.consume out).1 ≤ out.length := by
    rw [hamt]; exact min_le_right _ _
  have hdroplen : (lb.buffer.drop lb.cursor).length = FRAME_SIZE - lb.cursor := by
    rw [List.length_drop, hlen]
  have htakelen : ((lb.buffer.drop lb.cursor).take (lb.consume out).1).length =
      (lb.consume out).1 := by
    rw [List.length_take, hdroplen]
    exact min_eq_left hle1
  have hcur : (lb.consume out).2.1.cursor = lb.cursor + (lb.consume out).1 := rfl
  refine ⟨hamt, hcur, by rw [hcur]; omega, rfl, htakelen, ?_⟩
  have hout : (lb.consume out).2.2 =
      (lb.buffer.drop lb.cursor).take (lb.consume out).1 ++
        out.drop (lb.consume out).1 := rfl
  rw [hout, List.length_append, htakelen, List.length_drop]
  omega

/-- C10 witness: concrete `consume` on a partially drained buffer. -/
theorem c10_leftover_buffer_ops_witness :
    ((⟨List.replicate FRAME_SIZE 0, 510⟩ : LeftoverBuffer).cursor ≤ FRAME_SIZE) ∧
    ((List.replicate FRAME_SIZE (0 : ℚ)).length = FRAME_SIZE) ∧
    ((⟨List.replicate FRAME_SIZE 0, 510⟩ : LeftoverBuffer).consume [1, 2, 3]).1 =
      min (FRAME_SIZE - 510) 3 ∧
    ((⟨List.replicate FRAME_SIZE 0, 510⟩ : LeftoverBuffer).consume [1, 2, 3]).2.1.cursor =
      510 + 2 :=
  have h := (c10_leftover_buffer_ops.2.2
    (⟨List.replicate FRAME_SIZE 0, 510⟩ : LeftoverBuffer) [1, 2, 3]
    (by decide) (List.length_replicate _ _))
  ⟨by decide, List.length_replicate _ _, h.1, by rw [h.2.1, h.1]; decide⟩

theorem rustRem_nonneg_lt (x y : ℚ) (hy : 0 < y) :
    0 ≤ rustRem x y ∧ rustRem x y < y := by
  have hy' : y ≠ 0 := ne_of_gt hy
  have heq : rustRem x y = y * Int.fract (x / y) := by
    unfold rustRem Int.fract
    rw [mul_sub]
    congr 1
    rw [mul_div_cancel₀ _ hy']
  constructor
  · rw [heq]
    exact mul_nonneg hy.le (Int.fract_nonneg _)
  · rw [heq]
    calc y * Int.fract (x / y) < y * 1 :=
          (mul_lt_mul_left hy).2 (Int.fract_lt_one _)
      _ = y := mul_one y

theorem advances_invariant (table : List ℚ) (hlen : 0 < table.length) :
    ∀ (k : ℕ) (wt : WaveTableIndex),
      0 ≤ wt.index → wt.index < (table.length : ℚ) →
      0 ≤ wt.indices_per_sample →
      0 ≤ (WaveTableIndex.advances table k wt).index ∧
      (WaveTableIndex.advances table k wt).index < (table.length : ℚ) ∧
      (WaveTableIndex.advances table k wt).indices_per_sample =
        wt.indices_per_sample := by
  intro k
  induction k with
  | zero => exact fun wt h0 h1 h2 => ⟨h0, h1, rfl⟩
  | succ k ih =>
      intro wt h0 h1 h2
      have hq : (0 : ℚ) < (table.length : ℚ) := by exact_mod_cast hlen
      obtain ⟨hr0, hr1⟩ :=
        rustRem_nonneg_lt (wt.index + wt.indices_per_sample) _ hq
      have := ih (wt.sample_table table).2 hr0 hr1 h2
      exact ⟨this.1, this.2.1, this.2.2⟩

/-- C7: for every sample rate `sr > 0` and target frequency `hz ≥ 0`, an
oscillator built by `from_hz` has `step = hz * table_len / sr`; each
`sample_table` call returns `table[floor(index)]` and then sets
`index = (index + step) % table_len`; and starting from index `0` the
index after any number of advances stays in `[0, table_len)`, so the
table lookup `floor(index)` is always in bounds. -/
theorem c7_oscillator_contract (sr hz : ℚ) (table : List ℚ) (k : ℕ)
    (hsr : 0 < sr) (hhz : 0 ≤ hz) (hlen : table.length = WAVE_TABLE_SIZE) :
    (WaveTableIndex.from_hz sr hz).indices_per_sample =
      hz * (table.length : ℚ) / sr ∧
    (∀ wt : WaveTableIndex,
      (wt.sample_table table).1 = table.getD ⌊wt.index⌋.toNat 0 ∧
      (wt.sample_table table).2.index =
        rustRem (wt.index + wt.indices_per_sample) (table.length : ℚ)) ∧
    0 ≤ (WaveTableIndex.advances table k (WaveTableIndex.from_hz sr hz)).index ∧
    (WaveTableIndex.advances table k (WaveTableIndex.from_hz sr hz)).index <
      (table.length : ℚ) ∧
    ⌊(WaveTableIndex.advances table k (WaveTableIndex.from_hz sr hz)).index⌋.toNat <
      table.length := by
  have hpos : 0 < table.length := by
    rw [hlen]; norm_num [WAVE_TABLE_SIZE]
  have hq : (0 : ℚ) < (table.length : ℚ) := by exact_mod_cast hpos
  have hstep : (WaveTableIndex.from_hz sr hz).indices_per_sample =
      hz * (table.length : ℚ) / sr := by
    unfold WaveTableIndex.from_hz WaveTableIndex.new
      table_sample_conversion_factor
    rw [hlen]
    ring
  have hstep0 : 0 ≤ (WaveTableIndex.from_hz sr hz).indices_per_sample := by
    rw [hstep]
    exact div_nonneg (mul_nonneg hhz (by positivity)) hsr.le
  obtain ⟨h0, h1, _⟩ := advances_invariant table hpos k
    (WaveTableIndex.from_hz sr hz) le_rfl hq hstep0
  refine ⟨hstep, fun wt => ⟨rfl, rfl⟩, h0, h1, ?_⟩
  have hfl : ⌊(WaveTableIndex.advances table k
      (WaveTableIndex.from_hz sr hz)).index⌋ < (table.length : ℤ) :=
    Int.floor_lt.2 (by exact_mod_cast h1)
  omega

/-- C7 witness: concrete oscillator, three advances. -/
theorem c7_oscillator_contract_witness :
    (0 : ℚ) < 2 ∧ (0 : ℚ) ≤ 1 ∧
    (List.replicate WAVE_TABLE_SIZE (0 : ℚ)).length = WAVE_TABLE_SIZE ∧
    ((WaveTableIndex.from_hz 2 1).indices_per_sample =
      1 * ((List.replicate WAVE_TABLE_SIZE (0 : ℚ)).length : ℚ) / 2 ∧
    (∀ wt : WaveTableIndex,
      (wt.sample_table (List.replicate WAVE_TABLE_SIZE (0 : ℚ))).1 =
        (List.replicate WAVE_TABLE_SIZE (0 : ℚ)).getD ⌊wt.index⌋.toNat 0 ∧
      (wt.sample_table (List.replicate WAVE_TABLE_SIZE (0 : ℚ))).2.index =
        rustRem (wt.index + wt.indices_per_sample)
          ((List.replicate WAVE_TABLE_SIZE (0 : ℚ)).length : ℚ)) ∧
    0 ≤ (WaveTableIndex.advances (List.replicate WAVE_TABLE_SIZE (0 : ℚ)) 3
      (WaveTableIndex.from_hz 2 1)).index ∧
    (WaveTableIndex.advances (List.replicate WAVE_TABLE_SIZE (0 : ℚ)) 3
      (WaveTableIndex.from_hz 2 1)).index <
      ((List.replicate WAVE_TABLE_SIZE (0 : ℚ)).length : ℚ) ∧
    ⌊(WaveTableIndex.advances (List.replicate WAVE_TABLE_SIZE (0 : ℚ)) 3
      (WaveTableIndex.from_hz 2 1)).index⌋.toNat <
      (List.replicate WAVE_TABLE_SIZE (0 : ℚ)).length) :=
  ⟨by norm_num, by norm_num, List.length_replicate _ _,
    c7_oscillator_contract 2 1 (List.replicate WAVE_TABLE_SIZE 0) 3
      (by norm_num) (by norm_num) (List.length_replicate _ _)⟩

theorem noteFrameSamples_envelope_const (table : List ℚ) (channels : ℕ) :
    ∀ (spf : ℕ) (n : SynthNote),
      (noteFrameSamples table channels spf n).2 =
        { n with table_index :=
            WaveTableIndex.advances table spf n.table_index } := by
  intro spf
  induction spf with
  | zero => intro n; rfl
  | succ k ih =>
      intro n
      show (noteFrameSamples table channels k (n.sample_table table).2).2 = _
      rw [ih]
      rfl

theorem noteFrameSamples_output (table : List ℚ) (channels : ℕ) :
    ∀ (spf : ℕ) (n : SynthNote),
      (noteFrameSamples table channels spf n).1 =
        (oscSamples table spf n.table_index).bind
          (fun s => List.replicate channels (min (n.amplitude * s) 1)) := by
  intro spf
  induction spf with
  | zero => intro n; rfl
  | succ k ih =>
      intro n
      show List.replicate channels (min (n.sample_table table).1 1) ++
          (noteFrameSamples table channels k (n.sample_table table).2).1 = _
      rw [ih]
      rfl

/-- C3 (amended): the envelope is updated once per **frame**, not once per
sample.  Within a frame every sample uses the frame-constant amplitude
`0.2 * attack_factor * decay_factor * velocity` (there is a single decay
factor, no separate online/off pair) times the advancing oscillator sample,
clipped at `1`; after the frame's samples, `update_after_buffer` runs once
(decay drops by `0.05` only when stop is requested, attack rises by `0.02`
while below `1`), and the voice is removed at the frame boundary exactly
when the updated decay factor is `< 0.05`. -/
theorem c3_envelope_per_frame (table : List ℚ) (channels spf : ℕ)
    (n : SynthNote) :
    (processNoteFrame table channels spf n).1 =
      (oscSamples table spf n.table_index).bind
        (fun s => List.replicate channels (min (n.amplitude * s) 1)) ∧
    n.amplitude = 1/5 * n.attack_factor * n.decay_factor * n.velocity ∧
    (noteFrameSamples table channels spf n).2 =
      { n with table_index :=
          WaveTableIndex.advances table spf n.table_index } ∧
    (n.update_after_buffer).decay_factor =
      (if n.stop_requested then n.decay_factor - 1/20 else n.decay_factor) ∧
    (n.update_after_buffer).attack_factor =
      (if n.attack_factor < 1 then n.attack_factor + 1/50
       else n.attack_factor) ∧
    (processNoteFrame table channels spf n).2 =
      (if ((noteFrameSamples table channels spf n).2.update_after_buffer).decay_factor < 1/20
       then none
       else some ((noteFrameSamples table channels spf n).2.update_after_buffer)) := by
  refine ⟨noteFrameSamples_output table channels spf n, rfl,
    noteFrameSamples_envelope_const table channels spf n, ?_, ?_, ?_⟩
  · unfold SynthNote.update_after_buffer
    cases hs : n.stop_requested <;> simp [hs] <;> split_ifs <;> rfl
  · unfold SynthNote.update_after_buffer
    cases hs : n.stop_requested <;> simp [hs] <;> split_ifs <;> rfl
  · show (if ((noteFrameSamples table channels spf n).2.update_after_buffer).done_playing
        then none
        else some ((noteFrameSamples table channels spf n).2.update_after_buffer)) = _
    unfold SynthNote.done_playing
    split_ifs with h1 h2 h2
    · rfl
    · exact absurd (of_decide_eq_true h1) h2
    · exact absurd (decide_eq_true h2) (by simpa using h1)
    · rfl

/-- C3 counterexample: the envelope is **not** updated per synthesized
sample.  A concrete voice with `stop_requested = true`, `attack = 1/2`,
`decay = 1` produces one sample and afterwards has an unchanged decay
factor (still `1`, not decreased) and unchanged attack factor (still
`1/2`, not increased) — refuting "the online decay factor decreases every
sample ... the attack factor rises toward 1" at the per-sample level. -/
theorem c3_counterexample_envelope_not_per_sample :
    ((⟨⟨0, 1⟩, 1/2, 1, 1, true⟩ : SynthNote).sample_table [1, 1]).2.decay_factor = 1 ∧
    ((⟨⟨0, 1⟩, 1/2, 1, 1, true⟩ : SynthNote).sample_table [1, 1]).2.attack_factor = 1/2 ∧
    ¬ ((⟨⟨0, 1⟩, 1/2, 1, 1, true⟩ : SynthNote).sample_table [1, 1]).2.decay_factor <
        (⟨⟨0, 1⟩, 1/2, 1, 1, true⟩ : SynthNote).decay_factor ∧
    ¬ (⟨⟨0, 1⟩, 1/2, 1, 1, true⟩ : SynthNote).attack_factor <
        ((⟨⟨0, 1⟩, 1/2, 1, 1, true⟩ : SynthNote).sample_table [1, 1]).2.attack_factor := by
  exact ⟨rfl, rfl, lt_irrefl _, lt_irrefl _⟩

theorem filter_orderedInsert_tick (t : ℤ) (a : ℤ × ℕ × ℕ × ℕ) :
    ∀ l : List (ℤ × ℕ × ℕ × ℕ),
      (List.orderedInsert tickLE a l).filter (fun e => e.1 == t) =
        (if a.1 == t then a :: l.filter (fun e => e.1 == t)
         else l.filter (fun e => e.1 == t))
  | [] => by
      rcases hat : (a.1 == t) with _ | _ <;>
        simp [List.orderedInsert, List.filter_cons, hat]
  | b :: l => by
      simp only [List.orderedInsert]
      by_cases hr : tickLE a b
      · rw [if_pos hr]
        rcases hat : (a.1 == t) with _ | _ <;>
          simp [List.filter_cons, hat]
      · rw [if_neg hr]
        have hlt : b.1 < a.1 := lt_of_not_le hr
        rcases hbt : (b.1 == t) with _ | _
        · rcases hat : (a.1 == t) with _ | _ <;>
            simp [List.filter_cons, hbt, hat, filter_orderedInsert_tick t a l]
        · have hbt' : b.1 = t := by simpa using hbt
          have hat : (a.1 == t) = false := by
            simp only [beq_eq_false_iff_ne]
            omega
          simp [List.filter_cons, hbt, hat, filter_orderedInsert_tick t a l]

theorem filter_insertionSort_tick (t : ℤ) :
    ∀ l : List (ℤ × ℕ × ℕ × ℕ),
      (List.insertionSort tickLE l).filter (fun e => e.1 == t) =
        l.filter (fun e => e.1 == t)
  | [] => rfl
  | a :: l => by
      simp only [List.insertionSort]
      rw [filter_orderedInsert_tick t a (List.insertionSort tickLE l),
        filter_insertionSort_tick t l]
      rcases hat : (a.1 == t) with _ | _ <;> simp [List.filter_cons, hat]

theorem trackEventsAux_get (track_num : ℕ) :
    ∀ (track : List (ℕ × ℕ)) (a : ℤ) (i : ℕ) (ev : ℕ × ℕ),
      track.get? i = some ev →
      (trackEventsAux track_num a track).get? i =
        some (a + (((track.take i).map Prod.fst).sum : ℤ), track_num, ev)
  | [], _, i, _ => by intro h; simp at h
  | e :: rest, a, 0, ev => by
      intro h
      simp only [List.get?] at h
      cases h
      simp [trackEventsAux]
  | e :: rest, a, i + 1, ev => by
      intro h
      simp only [List.get?] at h
      have := trackEventsAux_get track_num rest (a + (e.1 : ℤ)) i ev h
      simp only [trackEventsAux, List.get?, this, List.take, List.map_cons,
        List.sum_cons]
      congr 2
      push_cast
      ring

/-- C4 (amended): each event's absolute tick is the running sum of the
delta-times of the events **strictly before** it in its own track — the
event's own delta is excluded, so the first event of every track lands at
tick 0 regardless of its delta — and the merged timeline is exactly those
triples stably sorted by absolute tick (sorted, a permutation of the
gathered triples, and order-preserving on every equal-tick class).  For
track A with (delta, payload) events `[(0,10),(100,11)]` and track B with
`[(50,20)]`, the merged timeline is
`[(0,A,ev10), (0,A,ev11), (0,B,ev20)]`. -/
theorem c4_timeline_merge (tracks : List (List (ℕ × ℕ))) (t : ℤ) :
    (∀ (track_num : ℕ) (track : List (ℕ × ℕ)) (i : ℕ) (ev : ℕ × ℕ),
      track.get? i = some ev →
      (trackEventsAux track_num 0 track).get? i =
        some ((((track.take i).map Prod.fst).sum : ℤ), track_num, ev)) ∧
    (single_timeline_of_events tracks).Sorted tickLE ∧
    List.Perm (single_timeline_of_events tracks) (allTrackEvents tracks) ∧
    (single_timeline_of_events tracks).filter (fun e => e.1 == t) =
      (allTrackEvents tracks).filter (fun e => e.1 == t) ∧
    single_timeline_of_events [[(0, 10), (100, 11)], [(50, 20)]] =
      [(0, 0, 0, 10), (0, 0, 100, 11), (0, 1, 50, 20)] := by
  refine ⟨?_, List.sorted_insertionSort tickLE _,
    List.perm_insertionSort tickLE _, filter_insertionSort_tick t _, by decide⟩
  intro track_num track i ev h
  have := trackEventsAux_get track_num track 0 i ev h
  simpa using this

/-- C4 amended witness: instantiation at the concrete two-track input. -/
theorem c4_timeline_merge_witness :
    ((trackEventsAux 0 0 [(0, 10), (100, 11)]).get? 1 =
      some (((([(0, 10), (100, 11)].take 1).map Prod.fst).sum : ℤ), 0, (100, 11))) ∧
    (single_timeline_of_events [[(0, 10), (100, 11)], [(50, 20)]]).Sorted tickLE ∧
    List.Perm (single_timeline_of_events [[(0, 10), (100, 11)], [(50, 20)]])
      (allTrackEvents [[(0, 10), (100, 11)], [(50, 20)]]) ∧
    (single_timeline_of_events [[(0, 10), (100, 11)], [(50, 20)]]).filter
        (fun e => e.1 == 0) =
      (allTrackEvents [[(0, 10), (100, 11)], [(50, 20)]]).filter
        (fun e => e.1 == 0) :=
  have h := c4_timeline_merge [[(0, 10), (100, 11)], [(50, 20)]] 0
  ⟨h.1 0 [(0, 10), (100, 11)] 1 (100, 11) rfl, h.2.1, h.2.2.1, h.2.2.2.1⟩

/-- C4 counterexample: with the natural SMF encoding of "track A with
events at ticks 0 and 100" (deltas `[0, 100]`) and "track B with an event
at tick 50" (delta `[50]`), the code does **not** produce the claimed
merged order `[(0,A), (50,B), (100,A)]`: because each event's own delta is
added only after the event is pushed, every first event lands at tick 0 and
A's second event also lands at tick 0, giving `[(0,A), (0,A), (0,B)]`. -/
theorem c4_counterexample_merged_order :
    single_timeline_of_events [[(0, 10), (100, 11)], [(50, 20)]] ≠
      [(0, 0, 0, 10), (50, 1, 50, 20), (100, 0, 100, 11)] ∧
    single_timeline_of_events [[(0, 10), (100, 11)], [(50, 20)]] =
      [(0, 0, 0, 10), (0, 0, 100, 11), (0, 1, 50, 20)] := by
  refine ⟨?_, by decide⟩
  decide

/-- C5: evaluation of `ticks_to_duration` at the failing input
`bpm = 120, ppqn = 96, delta_t = 288` (exactly 1500 ms, so exactly
`1_500_000_000` floored nanoseconds, all `f64` steps exact): the code
subtracts `seconds * 1_000_000` instead of `seconds * 1_000_000_000`,
leaving a "subsecond" remainder of `1_499_000_000 ≥ 10^9` that
`Duration::new` re-carries, producing a Duration of `2_499_000_000` ns
instead of the claimed `1_500_000_000` ns. -/
theorem c5_duration_carry_bug :
    ticks_ms 120 96 288 = 1500 ∧
    ⌊ticks_ms 120 96 288 * 1000000⌋ = 1500000000 ∧
    ticks_to_duration 120 96 288 = (2, 499000000) ∧
    durationTotalNanos (ticks_to_duration 120 96 288) = 2499000000 ∧
    durationTotalNanos (ticks_to_duration 120 96 288) ≠ 1500000000 := by
  have hms : ticks_ms 120 96 288 = 1500 := by
    norm_num [ticks_ms]
  have hfl : ⌊ticks_ms 120 96 288 * 1000000⌋ = 1500000000 := by
    rw [hms]
    norm_num
  have hd : ticks_to_duration 120 96 288 = (2, 499000000) := by
    simp only [ticks_to_duration, hfl]
    decide
  refine ⟨hms, hfl, hd, by rw [hd]; rfl, by rw [hd]; decide⟩

theorem notesKeys_stop_key (key : ℕ) :
    ∀ m : NotesMap, notesKeys (stop_key key m) = notesKeys m
  | [] => rfl
  | (k, w) :: rest => by
      simp only [stop_key]
      split_ifs with h
      · rfl
      · simp only [notesKeys, List.map_cons]
        congr 1
        exact notesKeys_stop_key key rest

theorem notesKeys_insertNote_mem (key : ℕ) (v : SynthNote) :
    ∀ m : NotesMap, key ∈ notesKeys m →
      notesKeys (insertNote key v m) = notesKeys m
  | [], h => by simp [notesKeys] at h
  | (k, w) :: rest, h => by
      simp only [insertNote]
      split_ifs with hk
      · subst hk
        rfl
      · have hmem : key ∈ notesKeys rest := by
          simp only [notesKeys, List.map_cons, List.mem_cons] at h
          rcases h with h | h
          · exact absurd h.symm hk
          · exact h
        simp only [notesKeys, List.map_cons]
        congr 1
        exact notesKeys_insertNote_mem key v rest hmem

theorem notesKeys_insertNote_not_mem (key : ℕ) (v : SynthNote) :
    ∀ m : NotesMap, key ∉ notesKeys m →
      notesKeys (insertNote key v m) = notesKeys m ++ [key]
  | [], _ => rfl
  | (k, w) :: rest, h => by
      simp only [notesKeys, List.map_cons, List.mem_cons, not_or] at h
      simp only [insertNote]
      split_ifs with hk
      · exact absurd hk.symm h.1
      · simp only [notesKeys, List.map_cons, List.cons_append]
        congr 1
        exact notesKeys_insertNote_not_mem key v rest h.2

theorem nodup_notesKeys_insertNote (key : ℕ) (v : SynthNote)
    (m : NotesMap) (h : (notesKeys m).Nodup) :
    (notesKeys (insertNote key v m)).Nodup := by
  by_cases hmem : key ∈ notesKeys m
  · rw [notesKeys_insertNote_mem key v m hmem]
    exact h
  · rw [notesKeys_insertNote_not_mem key v m hmem]
    simp [List.nodup_append, h, hmem]

theorem lookupNote_insertNote_self (key : ℕ) (v : SynthNote) :
    ∀ m : NotesMap, lookupNote key (insertNote key v m) = some v
  | [] => by simp [insertNote, lookupNote]
  | (k, w) :: rest => by
      simp only [insertNote]
      split_ifs with h
      · simp [lookupNote]
      · simp only [lookupNote, if_neg h]
        exact lookupNote_insertNote_self key v rest

theorem lookupNote_stop_key (key : ℕ) :
    ∀ (m : NotesMap) (w : SynthNote), lookupNote key m = some w →
      lookupNote key (stop_key key m) = some { w with stop_requested := true }
  | [], w, h => Option.noConfusion h
  | (k, v) :: rest, w, h => by
      simp only [lookupNote] at h
      by_cases hk : k = key
      · rw [if_pos hk] at h
        cases h
        simp only [stop_key, if_pos hk, lookupNote, if_pos hk]
      · rw [if_neg hk] at h
        simp only [stop_key, if_neg hk, lookupNote, if_neg hk]
        exact lookupNote_stop_key key rest w h

theorem stop_key_id_of_lookup_none (key : ℕ) :
    ∀ m : NotesMap, lookupNote key m = none → stop_key key m = m
  | [], _ => rfl
  | (k, w) :: rest, h => by
      simp only [lookupNote] at h
      by_cases hk : k = key
      · rw [if_pos hk] at h
        exact Option.noConfusion h
      · rw [if_neg hk] at h
        simp only [stop_key, if_neg hk]
        rw [stop_key_id_of_lookup_none key rest h]

theorem countNoteKey_eq_zero (key : ℕ) :
    ∀ m : NotesMap, key ∉ notesKeys m → countNoteKey key m = 0
  | [], _ => rfl
  | (k, w) :: rest, h => by
      simp only [notesKeys, List.map_cons, List.mem_cons, not_or] at h
      simp only [countNoteKey, List.countP_cons]
      have h1 : ((k, w).1 == key) = false := by
        simp only [beq_eq_false_iff_ne]
        exact fun hk => h.1 hk.symm
      rw [h1]
      simpa [countNoteKey] using countNoteKey_eq_zero key rest h.2

theorem countNoteKey_insertNote (key : ℕ) (v : SynthNote) :
    ∀ m : NotesMap, (notesKeys m).Nodup →
      countNoteKey key (insertNote key v m) = 1
  | [], _ => by simp [countNoteKey, insertNote]
  | (k, w) :: rest, h => by
      simp only [notesKeys, List.map_cons, List.nodup_cons] at h
      simp only [insertNote]
      split_ifs with hk
      · subst hk
        simp only [countNoteKey, List.countP_cons, beq_self_eq_true,
          if_true]
        have h0 : countNoteKey k rest = 0 := countNoteKey_eq_zero k rest h.1
        simp only [countNoteKey] at h0
        omega
      · simp only [countNoteKey, List.countP_cons]
        have h1 : ((k, w).1 == key) = false := by
          simp only [beq_eq_false_iff_ne]
          exact hk
        rw [h1]
        have ih := countNoteKey_insertNote key v rest h.2
        simp only [countNoteKey] at ih
        simp [ih]

/-- C6: the active-voices map keeps at most one voice per note key.  Every
handled message preserves key uniqueness; a note-on with velocity `> 0`
inserts or replaces (retriggers) the fresh voice for that key; a note-on
with velocity `0` is handled exactly like a note-off; a note-off on a key
that is not sounding leaves the map unchanged; a note-off on a sounding
key sets `stop_requested` on the matching voice (leaving its other fields
intact); and two successive note-ons for the same key leave exactly one
binding for that key. -/
theorem c6_voice_map_invariants (osc : ℕ → WaveTableIndex) (m : NotesMap)
    (c c' key vel v1 v2 : ℕ) :
    ((notesKeys m).Nodup → ∀ msg : MidiMsg,
      (notesKeys (handle_parsed_message osc msg m)).Nodup) ∧
    (vel ≠ 0 →
      lookupNote key (handle_parsed_message osc (MidiMsg.noteOn c key vel) m) =
        some ⟨osc key, 0, 1, (vel : ℚ) / 100, false⟩) ∧
    handle_parsed_message osc (MidiMsg.noteOn c key 0) m =
      handle_parsed_message osc (MidiMsg.noteOff c' key vel) m ∧
    (lookupNote key m = none →
      handle_parsed_message osc (MidiMsg.noteOff c key vel) m = m) ∧
    (∀ w : SynthNote, lookupNote key m = some w →
      lookupNote key (handle_parsed_message osc (MidiMsg.noteOff c key vel) m) =
        some { w with stop_requested := true }) ∧
    ((notesKeys m).Nodup → v1 ≠ 0 → v2 ≠ 0 →
      countNoteKey key
        (handle_parsed_message osc (MidiMsg.noteOn c key v2)
          (handle_parsed_message osc (MidiMsg.noteOn c' key v1) m)) = 1) := by
  refine ⟨?_, ?_, ?_, ?_, ?_, ?_⟩
  · intro hnd msg
    cases msg with
    | noteOn ch k v =>
        simp only [handle_parsed_message]
        split_ifs with hv
        · rw [notesKeys_stop_key]
          exact hnd
        · exact nodup_notesKeys_insertNote k _ m hnd
    | noteOff ch k v =>
        simp only [handle_parsed_message]
        rw [notesKeys_stop_key]
        exact hnd
    | timingClock => exact hnd
    | activeSensing => exact hnd
    | other => exact hnd
  · intro hv
    simp only [handle_parsed_message, if_neg hv, start_note]
    exact lookupNote_insertNote_self key _ m
  · simp [handle_parsed_message]
  · intro hnone
    simp only [handle_parsed_message]
    exact stop_key_id_of_lookup_none key m hnone
  · intro w hw
    simp only [handle_parsed_message]
    exact lookupNote_stop_key key m w hw
  · intro hnd h1 h2
    simp only [handle_parsed_message, if_neg h1, if_neg h2, start_note]
    exact countNoteKey_insertNote key _ _
      (nodup_notesKeys_insertNote key _ m hnd)

/-- C6 witness: two successive note-ons for key 60 on the empty map, and a
note-off for key 60 on a map where key 60 is sounding. -/
theorem c6_voice_map_invariants_witness :
    (notesKeys (handle_parsed_message (fun _ => WaveTableIndex.new 0 0)
      (MidiMsg.noteOn 0 60 64) [])).Nodup ∧
    lookupNote 60 (handle_parsed_message (fun _ => WaveTableIndex.new 0 0)
        (MidiMsg.noteOn 0 60 64) []) =
      some ⟨(fun _ => WaveTableIndex.new 0 0) 60, 0, 1, (64 : ℚ) / 100, false⟩ ∧
    handle_parsed_message (fun _ => WaveTableIndex.new 0 0)
        (MidiMsg.noteOn 0 60 0) [] =
      handle_parsed_message (fun _ => WaveTableIndex.new 0 0)
        (MidiMsg.noteOff 0 60 64) [] ∧
    handle_parsed_message (fun _ => WaveTableIndex.new 0 0)
        (MidiMsg.noteOff 0 60 64) [] = [] ∧
    lookupNote 60 (handle_parsed_message (fun _ => WaveTableIndex.new 0 0)
        (MidiMsg.noteOff 0 60 64)
        [(60, ⟨WaveTableIndex.new 0 0, 0, 1, (64 : ℚ) / 100, false⟩)]) =
      some ⟨WaveTableIndex.new 0 0, 0, 1, (64 : ℚ) / 100, true⟩ ∧
    countNoteKey 60
      (handle_parsed_message (fun _ => WaveTableIndex.new 0 0)
        (MidiMsg.noteOn 0 60 100)
        (handle_parsed_message (fun _ => WaveTableIndex.new 0 0)
          (MidiMsg.noteOn 0 60 64) [])) = 1 :=
  have h := c6_voice_map_invariants (fun _ => WaveTableIndex.new 0 0) []
    0 0 60 64 64 100
  have hsounding := c6_voice_map_invariants (fun _ => WaveTableIndex.new 0 0)
    [(60, ⟨WaveTableIndex.new 0 0, 0, 1, (64 : ℚ) / 100, false⟩)]
    0 0 60 64 64 100
  ⟨h.1 List.nodup_nil (MidiMsg.noteOn 0 60 64),
    h.2.1 (by decide), h.2.2.1, h.2.2.2.1 rfl,
    hsounding.2.2.2.2.1 ⟨WaveTableIndex.new 0 0, 0, 1, (64 : ℚ) / 100, false⟩ rfl,
    h.2.2.2.2.2 List.nodup_nil (by decide) (by decide)⟩

/-- C8 (amended): a recognized-but-unsupported message (the handler's
`other` arm, and the explicitly ignored TimingClock / ActiveSensing arms)
leaves the voice state untouched and does not abort, and the quantizer
drops events longer than the 3-byte raw-message size without aborting.
However a **malformed** message aborts the handler
(`c8_malformed_message_panics`): the claim's "malformed ... never aborts"
part fails on the code. -/
theorem c8_unrecognized_ignored_oversized_dropped :
    (∀ (osc : ℕ → WaveTableIndex) (raw : ℕ × List ℕ) (m : NotesMap)
      (msg : MidiMsg), wmidi_try_from raw.2 = some msg →
      (msg = MidiMsg.other ∨ msg = MidiMsg.timingClock ∨
        msg = MidiMsg.activeSensing) →
      handle_midi_message osc raw m = some m) ∧
    (∀ bytes : List ℕ, 3 < bytes.length →
      convert_event_to_raw_message bytes = none) ∧
    (∀ (t : ℤ) (track : ℕ) (bytes : List ℕ), 3 < bytes.length →
      send_event_to_track t track bytes = []) := by
  have hconv : ∀ bytes : List ℕ, 3 < bytes.length →
      convert_event_to_raw_message bytes = none := by
    intro bytes h
    simp only [convert_event_to_raw_message]
    rw [if_neg (by omega)]
  refine ⟨?_, hconv, ?_⟩
  · intro osc raw m msg hparse hshape
    simp only [handle_midi_message, hparse]
    rcases hshape with h | h | h <;> subst h <;> rfl
  · intro t track bytes h
    simp only [send_event_to_track, hconv bytes h]

/-- C8 amended witness: a ControlChange (`0xB0`, recognized, unsupported)
is ignored; a 4-byte event is dropped by the quantizer. -/
theorem c8_unrecognized_ignored_oversized_dropped_witness :
    wmidi_try_from (0, [0xB0, 1, 1]).2 = some MidiMsg.other ∧
    handle_midi_message (fun _ => WaveTableIndex.new 0 0)
      (0, [0xB0, 1, 1]) [] = some [] ∧
    convert_event_to_raw_message [1, 2, 3, 4] = none ∧
    send_event_to_track 7 0 [1, 2, 3, 4] = [] :=
  ⟨by decide,
    c8_unrecognized_ignored_oversized_dropped.1
      (fun _ => WaveTableIndex.new 0 0) (0, [0xB0, 1, 1]) [] MidiMsg.other
      (by decide) (Or.inl rfl),
    c8_unrecognized_ignored_oversized_dropped.2.1 [1, 2, 3, 4] (by decide),
    c8_unrecognized_ignored_oversized_dropped.2.2 7 0 [1, 2, 3, 4]
      (by decide)⟩

/-- C8 counterexample: a malformed 3-byte message — NoteOn status `0x90`
with an invalid data byte `0x80` — fails `MidiMessage::try_from`, and
`handle_midi_message` panics on the `.expect(..)` (`none`): processing
aborts instead of ignoring the malformed message. -/
theorem c8_malformed_message_panics :
    wmidi_try_from [0x90, 0x80, 0x40] = none ∧
    handle_midi_message (fun _ => WaveTableIndex.new 0 0)
      (0, [0x90, 0x80, 0x40]) [] = none := by
  exact ⟨by decide, by decide⟩

theorem replayAux_no_cancel :
    ∀ (l : List (ℤ × ℕ × List ℕ)) (start : ℕ),
      (replayAux (fun _ => false) l start).1 =
        l.bind (fun e => send_event_to_track e.1 e.2.1 e.2.2)
  | [], _ => rfl
  | [e], _ => by simp [replayAux]
  | e :: e' :: rest, start => by
      simp only [replayAux, Bool.false_eq_true, if_false]
      split_ifs with h
      · simp [replayAux_no_cancel (e' :: rest) start, List.cons_bind]
      · simp [replayAux_no_cancel (e' :: rest) (start + 1), List.cons_bind]

theorem replayAux_sent_prefix (cancel : ℕ → Bool) :
    ∀ (l : List (ℤ × ℕ × List ℕ)) (start : ℕ),
      ∃ tail, (replayAux cancel l start).1 ++ tail =
        l.bind (fun e => send_event_to_track e.1 e.2.1 e.2.2)
  | [], _ => ⟨[], rfl⟩
  | [e], _ => ⟨[], by simp [replayAux]⟩
  | e :: e' :: rest, start => by
      simp only [replayAux]
      split_ifs with h hc
      · obtain ⟨tail, htail⟩ := replayAux_sent_prefix cancel (e' :: rest) start
        exact ⟨tail, by simp [List.cons_bind, ← htail]⟩
      · refine ⟨rest.bind (fun e => send_event_to_track e.1 e.2.1 e.2.2), ?_⟩
        simp [List.cons_bind]
      · obtain ⟨tail, htail⟩ :=
          replayAux_sent_prefix cancel (e' :: rest) (start + 1)
        exact ⟨tail, by simp [List.cons_bind, ← htail]⟩

theorem replayAux_waits_le (k : ℕ) :
    ∀ (l : List (ℤ × ℕ × List ℕ)) (start : ℕ), start ≤ k →
      (replayAux (fun i => i == k) l start).2 ≤ k - start
  | [], _, _ => by simp [replayAux]
  | [e], _, _ => by simp [replayAux]
  | e :: e' :: rest, start, hstart => by
      simp only [replayAux]
      split_ifs with h hc
      · exact replayAux_waits_le k (e' :: rest) start hstart
      · simp
      · have hne : start ≠ k := by
          intro hk
          rw [hk] at hc
          simp at hc
        have := replayAux_waits_le k (e' :: rest) (start + 1) (by omega)
        omega

/-- C9 (amended): the replay dispatches events in timeline order (the
uncancelled run dispatches exactly the converted events, in order); with
cancellation firing at the `k`-th `select!`, the dispatched messages are a
prefix of the uncancelled dispatch sequence — events dispatched before the
cancellation remain delivered, with no rollback and no reordering — and no
wait at or after index `k` completes (at most `k` waits run).  However the
`break` is followed by the loop's trailing `all_events[i]` send, so one
more event (the next pending one) is still dispatched after cancellation
fires (`c9_counterexample_event_after_cancel`). -/
theorem c9_cancellation_prefix (events : List (ℤ × ℕ × List ℕ)) (k : ℕ) :
    (quantize_midi_tracks (fun _ => false) events).1 =
      events.bind (fun e => send_event_to_track e.1 e.2.1 e.2.2) ∧
    (∃ tail, (quantize_midi_tracks (fun i => i == k) events).1 ++ tail =
      events.bind (fun e => send_event_to_track e.1 e.2.1 e.2.2)) ∧
    (quantize_midi_tracks (fun i => i == k) events).2 ≤ k :=
  ⟨replayAux_no_cancel events 0,
    replayAux_sent_prefix (fun i => i == k) events 0,
    by simpa using replayAux_waits_le k events 0 (Nat.zero_le k)⟩

/-- C9 counterexample: two events at distinct ticks; cancellation fires at
the very first `select!`, yet **both** events are dispatched (the second by
the trailing send after `break`), refuting "once cancellation fires ... no
further events are dispatched".  No wait completes. -/
theorem c9_counterexample_event_after_cancel :
    (quantize_midi_tracks (fun _ => true)
        [(0, 0, [0x90, 60, 64]), (100, 0, [0x80, 60, 64])]).1 =
      [(0, 0, [0x90, 60, 64]), (100, 0, [0x80, 60, 64])] ∧
    (quantize_midi_tracks (fun _ => true)
        [(0, 0, [0x90, 60, 64]), (100, 0, [0x80, 60, 64])]).1 ≠
      [(0, 0, [0x90, 60, 64])] ∧
    (quantize_midi_tracks (fun _ => true)
        [(0, 0, [0x90, 60, 64]), (100, 0, [0x80, 60, 64])]).2 = 0 := by
  decide

end Nocturne
